import Mathlib

/-!
Verification of the chidb B-tree storage engine (`src/libchidb/btree.c`)
against its natural-language specification.

The page buffers manipulated by the C code are modelled as byte stores of
type `Nat → Nat` (address to byte value); every write reduces the stored
value modulo 256, mirroring the `uint8_t` buffers of the source.  The
big-endian helpers `get2byte`/`put2byte`/`get4byte`/`put4byte` and the
varint codec live in `util.c`, which is not part of the sources; they are
modelled from the spec (§6).  Everything else is translated directly from
`btree.c`.
-/

/-- The chidb status codes used by `btree.c` (spec §7).  `EUNDEFINED`
is not a chidb code: it marks the execution path on which the C function
`chidb_Btree_insert` reaches the end of its body without executing a
`return` statement, so that its (undefined) return value is observable in
the model.  `EFUEL` marks fuel exhaustion of the recursion in the model of
`chidb_Btree_find` and never arises in any theorem below.  `EINTERNAL`
models the `exit(1)` calls in the `default` branches of the source. -/
inductive ChidbStatus where
  | OK
  | ECORRUPTHEADER
  | EPAGENO
  | ECELLNO
  | ENOTFOUND
  | EDUPLICATE
  | ENOMEM
  | EIOERR
  | EUNDEFINED
  | EFUEL
  | EINTERNAL
deriving DecidableEq, Repr

/-- A byte store: page buffers are `uint8_t` arrays in the source; a write
stores the value modulo 256. -/
def writeByte (d : Nat → Nat) (off v : Nat) : Nat → Nat :=
  fun a => if a = off then v % 256 else d a

/-- Modelled from the spec: big-endian `get2byte` from `util.c` (§6),
which is not among the sources. -/
def get2byte (d : Nat → Nat) (off : Nat) : Nat :=
  256 * d off + d (off + 1)

/-- Modelled from the spec: big-endian `put2byte` from `util.c` (§6). -/
def put2byte (d : Nat → Nat) (off v : Nat) : Nat → Nat :=
  writeByte (writeByte d off (v / 256)) (off + 1) v

/-- Modelled from the spec: big-endian `get4byte` from `util.c` (§6). -/
def get4byte (d : Nat → Nat) (off : Nat) : Nat :=
  16777216 * d off + 65536 * d (off + 1) + 256 * d (off + 2) + d (off + 3)

/-- Modelled from the spec: big-endian `put4byte` from `util.c` (§6). -/
def put4byte (d : Nat → Nat) (off v : Nat) : Nat → Nat :=
  writeByte (writeByte (writeByte (writeByte d off (v / 16777216))
    (off + 1) (v / 65536)) (off + 2) (v / 256)) (off + 3) v

/-- Modelled from the spec: the varint32 codec of `util.c` (§6) encodes a
32-bit unsigned integer big-endian in at most 4 bytes.  The cell codecs in
`btree.c` address the fields following a varint at the fixed offsets +4
and +8, so the encoding always occupies exactly 4 bytes on disk; it is
modelled as plain 4-byte big-endian. -/
def putVarint32 (d : Nat → Nat) (off v : Nat) : Nat → Nat :=
  put4byte d off v

/-- Modelled from the spec: inverse of `putVarint32` (§6). -/
def getVarint32 (d : Nat → Nat) (off : Nat) : Nat :=
  get4byte d off

/-- `memcpy` of a list of bytes into a byte store at `off`. -/
def memcpyBytes (d : Nat → Nat) (off : Nat) : List Nat → (Nat → Nat)
  | [] => d
  | b :: bs => memcpyBytes (writeByte d off b) (off + 1) bs

/-- `memmove(dst, src, n)` on a byte store: every address of the
destination region reads from the original store, which is exactly the
overlap-safe semantics of `memmove`. -/
def memmoveBytes (d : Nat → Nat) (dst src n : Nat) : Nat → Nat :=
  fun a => if dst ≤ a ∧ a < dst + n then d (src + (a - dst)) else d a

/-- Read `n` consecutive bytes starting at `off`. -/
def readBytes (d : Nat → Nat) (off n : Nat) : List Nat :=
  (List.range n).map (fun j => d (off + j))

/-- The default page size used for freshly created files
(`DEFAULT_PAGE_SIZE` in `chidbInt.h`, spec §4.1: "the default (1024)"). -/
def DEFAULT_PAGE_SIZE : Nat := 1024

/-- The database file: page size, number of pages, and the byte contents
of each page (indexed by the 1-based page number).  Modelled from the
spec's pager contract (§6): the pager is not among the sources. -/
structure DBFile where
  pageSize : Nat
  nPages : Nat
  pages : Nat → (Nat → Nat)

/-- Total number of bytes of the file: `nPages` pages of `pageSize`
bytes each (spec §3: a sequence of equally-sized pages). -/
def DBFile.size (f : DBFile) : Nat := f.nPages * f.pageSize

/-- Modelled from the spec: `chidb_Pager_allocatePage` (§6) extends the
file by one page (zero-filled, as the file is extended) and returns its
1-based number. -/
def chidb_Pager_allocatePage (f : DBFile) : DBFile × Nat :=
  ({ f with nPages := f.nPages + 1,
            pages := fun p => if p = f.nPages + 1 then (fun _ => 0) else f.pages p },
   f.nPages + 1)

/-- Store a page buffer back into the file (the effect of
`chidb_Pager_writePage`, modelled from the spec §6). -/
def DBFile.storePage (f : DBFile) (npage : Nat) (d : Nat → Nat) : DBFile :=
  { f with pages := fun p => if p = npage then d else f.pages p }

/-- The byte offset at which the node header of page `npage` starts
(`btree.c`: `npage == 1 ? 100 : 0`). -/
def pageBase (npage : Nat) : Nat := if npage = 1 then 100 else 0

/-- The ASCII bytes "SQLite format 3" followed by the NUL terminator:
the 16 bytes compared by `memcmp(phdr, "SQLite format 3", 16)` in
`chidb_Btree_open` and written by `sprintf` in
`chidb_Btree_initEmptyNode`. -/
def magicBytes : List Nat :=
  [83, 81, 76, 105, 116, 101, 32, 102, 111, 114, 109, 97, 116, 32, 51, 0]

/-- The 100-byte file header written by `chidb_Btree_initEmptyNode`
for page 1 (`btree.c` lines 295-354), applied to the page's byte store. -/
def writeFileHeader (d : Nat → Nat) (page_size : Nat) : Nat → Nat :=
  -- sprintf((char *) page->data, "SQLite format 3"); writes 15 chars + NUL
  let d := memcpyBytes d 0 magicBytes
  let d := put2byte d 16 page_size
  let d := memcpyBytes d 18 [1, 1, 0, 64, 32, 32]
  let d := put4byte d 24 0        -- file change counter, 4 unused bytes follow
  let d := put4byte d 32 0
  let d := put4byte d 36 0        -- 8 bytes worth of 0
  let d := put4byte d 40 0        -- schema version
  let d := put4byte d 44 1        -- constant 1 at 0x2C
  let d := put4byte d 48 20000    -- page cache size at 0x30
  let d := put4byte d 52 0        -- constant 0 at 0x34
  let d := put4byte d 56 1        -- constant 1 at 0x38
  let d := put4byte d 60 0        -- user cookie
  put4byte d 64 0                 -- constant 0 at 0x40

/-- `chidb_Btree_initEmptyNode` (`btree.c` lines 283-394): writes the file
header on page 1, then the empty node header, writes the page and
releases it. -/
def chidb_Btree_initEmptyNode (f : DBFile) (npage : Nat) (type : Nat) :
    DBFile × ChidbStatus :=
  if npage < 1 ∨ f.nPages < npage then (f, .EPAGENO) else
  let d0 := f.pages npage
  let d := if npage = 1 then writeFileHeader d0 f.pageSize else d0
  let base := pageBase npage
  let d := writeByte d base type
  let d := put2byte d (base + 1)
    ((if type = 5 ∨ type = 2 then 12 else 8) + (if npage = 1 then 100 else 0))
  let d := put2byte d (base + 3) 0
  let d := put2byte d (base + 5) f.pageSize
  let d := writeByte d (base + 7) 0
  let d := if type = 5 ∨ type = 2 then put4byte d (base + 8) 0 else d
  (f.storePage npage d, .OK)

/-- `chidb_Btree_newNode` (`btree.c` lines 252-263): allocate the next
page and initialize it. -/
def chidb_Btree_newNode (f : DBFile) (type : Nat) : DBFile × Nat × ChidbStatus :=
  let (f1, npage) := chidb_Pager_allocatePage f
  let (f2, st) := chidb_Btree_initEmptyNode f1 npage type
  (f2, npage, st)

/-- The empty-file branch of `chidb_Btree_open` (`btree.c` lines
109-116): set the page size to the default, reset the page count, create
an empty table-leaf node that becomes page 1. -/
def freshDBFile : DBFile :=
  (chidb_Btree_newNode { pageSize := DEFAULT_PAGE_SIZE, nPages := 0,
                         pages := fun _ _ => 0 } 13).1

/-- One 16-byte `memcmp`-equality as a decidable Bool. -/
def bytesMatch (d : Nat → Nat) (off : Nat) (expected : List Nat) : Bool :=
  decide (∀ j, (h : j < expected.length) → d (off + j) = expected.get ⟨j, h⟩)

/-- The `memcmp` part of the header validation in `chidb_Btree_open`
(`btree.c` lines 124-131): the magic string, the six constant bytes at
0x12 and the four-byte fields at 0x20, 0x24, 0x2C, 0x34, 0x38, 0x40. -/
def headerFieldsOK (phdr : Nat → Nat) : Bool :=
  bytesMatch phdr 0 magicBytes &&
  bytesMatch phdr 0x12 [1, 1, 0, 64, 32, 32] &&
  bytesMatch phdr 0x20 [0, 0, 0, 0] &&
  bytesMatch phdr 0x24 [0, 0, 0, 0] &&
  bytesMatch phdr 0x2c [0, 0, 0, 1] &&
  bytesMatch phdr 0x34 [0, 0, 0, 0] &&
  bytesMatch phdr 0x38 [0, 0, 0, 1] &&
  bytesMatch phdr 0x40 [0, 0, 0, 0]

/-- The complete acceptance condition of `chidb_Btree_open` for a
non-empty file (`btree.c` lines 124-134): the header is accepted (open
returns `CHIDB_OK`) iff all `memcmp`s succeed AND the four-byte field at
0x30 is NOT 20000; otherwise open returns `CHIDB_ECORRUPTHEADER`. -/
def chidb_Btree_openAccepts (phdr : Nat → Nat) : Bool :=
  headerFieldsOK phdr && !(get4byte phdr 0x30 == 20000)

/-- The validation the claim (and spec §3/§4.1) states: the layout
checks pass and the page-cache field at 0x30 equals 20000, the value
`initEmptyNode` writes.  Second definition, following the spec's words,
for comparison with the source's `chidb_Btree_openAccepts`. -/
def specHeaderValid (phdr : Nat → Nat) : Bool :=
  headerFieldsOK phdr && (get4byte phdr 0x30 == 20000)

/-- C1: the file header of a freshly created database (written by
`chidb_Btree_initEmptyNode`) passes every layout check and carries 20000
in the page-cache field at 0x30 — exactly what the claim's validation
accepts — yet `chidb_Btree_open` rejects it with `CHIDB_ECORRUPTHEADER`,
because line 132 of `btree.c` fails the header when that field *equals*
20000.  Reopening a file freshly created by this engine therefore fails,
contradicting the claim. -/
theorem btree_open_rejects_fresh_header :
    headerFieldsOK (freshDBFile.pages 1) = true ∧
    get4byte (freshDBFile.pages 1) 0x30 = 20000 ∧
    specHeaderValid (freshDBFile.pages 1) = true ∧
    chidb_Btree_openAccepts (freshDBFile.pages 1) = false := by
  decide

/-- C8: opening a nonexistent file creates a single 1024-byte page whose
bytes 0-15 are "SQLite format 3\0", whose bytes 16-17 are 0x04 0x00, and
whose page-1 node header at offset 100 reads `type = 0x0D`, `n_cells =
0`, `cells_offset = 1024`, `free_offset = 108`. -/
theorem open_fresh_file_layout :
    freshDBFile.size = 1024 ∧
    freshDBFile.nPages = 1 ∧
    readBytes (freshDBFile.pages 1) 0 16 = magicBytes ∧
    freshDBFile.pages 1 16 = 4 ∧
    freshDBFile.pages 1 17 = 0 ∧
    freshDBFile.pages 1 100 = 0x0D ∧
    get2byte (freshDBFile.pages 1) 101 = 108 ∧
    get2byte (freshDBFile.pages 1) 103 = 0 ∧
    get2byte (freshDBFile.pages 1) 105 = 1024 := by
  decide

/-- The in-memory B-tree node handle (`BTreeNode` in `btree.h`): a parsed
copy of the header fields plus the underlying page buffer.  The C struct
stores `celloffset_array` as a pointer into the page; `celloffset_pos` is
its byte offset from the start of the page. -/
structure BTreeNode where
  data : Nat → Nat
  npage : Nat
  type : Nat
  free_offset : Nat
  n_cells : Nat
  cells_offset : Nat
  right_page : Nat
  celloffset_pos : Nat

/-- The parse performed by `chidb_Btree_getNodeByPage` (`btree.c` lines
199-206) on an in-range page. -/
def parseNode (f : DBFile) (npage : Nat) : BTreeNode :=
  let d := f.pages npage
  let base := pageBase npage
  let t := d base
  { data := d
    npage := npage
    type := t
    free_offset := get2byte d (base + 1)
    n_cells := get2byte d (base + 3)
    cells_offset := get2byte d (base + 5)
    right_page := if t = 5 ∨ t = 2 then get4byte d (base + 8) else 0
    celloffset_pos := base + (if t = 5 ∨ t = 2 then 12 else 8) }

/-- `chidb_Btree_getNodeByPage` (`btree.c` lines 186-209).  The pager's
`readPage` rejects out-of-range page numbers with `CHIDB_EPAGENO`
(modelled from the spec §6/§7: `BadPageNo — a page number is out of
range`); on success the node header is parsed as in the source. -/
def chidb_Btree_getNodeByPage (f : DBFile) (npage : Nat) :
    Except ChidbStatus BTreeNode :=
  if npage < 1 ∨ f.nPages < npage then .error .EPAGENO
  else .ok (parseNode f npage)

/-- `chidb_Btree_writeNode`, parameterized by the status the pager's
`chidb_Pager_writePage` reports (`btree.c` lines 415-430): the node
header fields are serialized back into the page buffer, the page is
submitted to the pager, and — faithfully to line 427, where the
`writePage` status is discarded — the function returns `CHIDB_OK`
unconditionally. -/
def chidb_Btree_writeNodeP (writePageStatus : ChidbStatus) (f : DBFile)
    (btn : BTreeNode) : DBFile × ChidbStatus :=
  let base := pageBase btn.npage
  let d := writeByte btn.data base btn.type
  let d := put2byte d (base + 1) btn.free_offset
  let d := put2byte d (base + 3) btn.n_cells
  let d := put2byte d (base + 5) btn.cells_offset
  let d := if btn.type = 5 ∨ btn.type = 2 then put4byte d (base + 8) btn.right_page else d
  let f := f.storePage btn.npage d
  let _ := writePageStatus   -- ignored by the source
  (f, .OK)

/-- `chidb_Btree_writeNode` with a successfully completing pager. -/
def chidb_Btree_writeNode (f : DBFile) (btn : BTreeNode) : DBFile × ChidbStatus :=
  chidb_Btree_writeNodeP .OK f btn

/-- C9: `chidb_Btree_writeNode` reports success even when the pager's
`chidb_Pager_writePage` fails with an I/O error: line 427 of `btree.c`
discards the `writePage` status and line 429 returns `CHIDB_OK`, so the
error is never propagated, contradicting the claim (and the function's
own doc comment, which lists `CHIDB_EIO` as a return value). -/
theorem writeNode_swallows_io_error (f : DBFile) (btn : BTreeNode) :
    (chidb_Btree_writeNodeP .EIOERR f btn).2 = .OK := by
  rfl

/-- The four cell variants (spec §3), as the tagged sum the spec's §9
recommends for the C `BTreeCell` struct (type byte + union). -/
inductive BTreeCell where
  | tableInternal (child_page : Nat) (key : Nat)
  | tableLeaf (data_size : Nat) (key : Nat) (data : List Nat)
  | indexInternal (child_page : Nat) (key : Nat) (keyPk : Nat)
  | indexLeaf (key : Nat) (keyPk : Nat)
deriving DecidableEq, Repr

/-- The `type` field of the C `BTreeCell` struct. -/
def BTreeCell.ctype : BTreeCell → Nat
  | .tableInternal _ _ => 5
  | .tableLeaf _ _ _ => 13
  | .indexInternal _ _ _ => 2
  | .indexLeaf _ _ => 10

/-- The `key` field of the C `BTreeCell` struct. -/
def BTreeCell.ckey : BTreeCell → Nat
  | .tableInternal _ k => k
  | .tableLeaf _ k _ => k
  | .indexInternal _ k _ => k
  | .indexLeaf k _ => k

/-- The first 32-bit word of the C `fields` union: it is where
`tableInternal.child_page`, `tableLeaf.data_size`,
`indexInternal.child_page` and `indexLeaf.keyPk` all live, so reading any
of those members through a cell of a different variant yields this
word (the union pun of the source). -/
def BTreeCell.word0 : BTreeCell → Nat
  | .tableInternal c _ => c
  | .tableLeaf ds _ _ => ds
  | .indexInternal c _ _ => c
  | .indexLeaf _ pk => pk

/-- The second 32-bit word of the C `fields` union, as read through the
`indexInternal.keyPk` member (0 when the stored variant has no second
integer word; no theorem exercises a mismatched read). -/
def BTreeCell.word1 : BTreeCell → Nat
  | .indexInternal _ _ pk => pk
  | _ => 0

/-- The `tableLeaf.data` payload as read through the union (empty for the
other variants; no theorem exercises a mismatched read). -/
def BTreeCell.payload : BTreeCell → List Nat
  | .tableLeaf _ _ l => l
  | _ => []

/-- The number of bytes the cell occupies on disk when serialized into a
node of type `t` (`TABLELEAFCELL_SIZE_WITHOUTDATA = 8`,
`TABLEINTCELL_SIZE = 8`, `INDEXINTCELL_SIZE = 16`, `INDEXLEAFCELL_SIZE =
12`; spec §3). -/
def cellDiskSize (t : Nat) (c : BTreeCell) : Nat :=
  if t = 13 then c.word0 + 8
  else if t = 5 then 8
  else if t = 2 then 16
  else if t = 10 then 12
  else 0

/-- The serialization step of `chidb_Btree_insertCell` (`btree.c` lines
523-555): lay the cell out below `cells_offset` in the page buffer,
switching on the node type exactly as the source does, and return the
updated buffer.  The four constant bytes `{0x0B, 0x03, 0x04, 0x04}` are
the `hexg` array of line 517. -/
def serializeCell (d : Nat → Nat) (t co : Nat) (c : BTreeCell) : Nat → Nat :=
  if t = 13 then
    let off := co - c.word0 - 8
    let d := putVarint32 d off c.word0
    let d := putVarint32 d (off + 4) c.ckey
    memcpyBytes d (off + 8) (c.payload.take c.word0)
  else if t = 5 then
    let off := co - 8
    putVarint32 (put4byte d off c.word0) (off + 4) c.ckey
  else if t = 2 then
    let off := co - 16
    let d := put4byte d off c.word0
    let d := memcpyBytes d (off + 4) [11, 3, 4, 4]
    let d := put4byte d (off + 8) c.ckey
    put4byte d (off + 12) c.word1
  else if t = 10 then
    let off := co - 12
    let d := memcpyBytes d off [11, 3, 4, 4]
    let d := put4byte d (off + 4) c.ckey
    put4byte d (off + 8) c.word0
  else d

/-- `chidb_Btree_insertCell` (`btree.c` lines 514-564): bounds-check the
position, serialize the cell below the cell area, decrement
`cells_offset`, shift the offset-array tail right by one slot, store the
new `cells_offset` at slot `ncell`, and bump `n_cells` and
`free_offset`.  The `default` branch of the source's switch calls
`exit(1)`, modelled as `EINTERNAL`.  (The source spells the error return
on the bounds check `eturn CHIDB_ECELLNO`, an evident typo for
`return`.)  The mutation of the page buffer is split out as
`insertedData`: serialize the cell, `memmove` the offset-array tail one
slot right, store the new `cells_offset` in slot `ncell`. -/
def insertedData (btn : BTreeNode) (ncell : Nat) (c : BTreeCell) : Nat → Nat :=
  let d := serializeCell btn.data btn.type btn.cells_offset c
  let d := memmoveBytes d (btn.celloffset_pos + ncell * 2 + 2)
    (btn.celloffset_pos + ncell * 2) ((btn.n_cells - ncell) * 2)
  put2byte d (btn.celloffset_pos + ncell * 2)
    (btn.cells_offset - cellDiskSize btn.type c)

def chidb_Btree_insertCell (btn : BTreeNode) (ncell : Nat) (c : BTreeCell) :
    Except ChidbStatus BTreeNode :=
  if btn.n_cells < ncell then .error .ECELLNO
  else if btn.type ≠ 13 ∧ btn.type ≠ 5 ∧ btn.type ≠ 2 ∧ btn.type ≠ 10 then
    .error .EINTERNAL
  else
    .ok { btn with
            data := insertedData btn ncell c
            cells_offset := btn.cells_offset - cellDiskSize btn.type c
            n_cells := btn.n_cells + 1
            free_offset := btn.free_offset + 2 }

/-- `chidb_Btree_getCell` (`btree.c` lines 451-488): read the cell offset
from slot `ncell` of the offset array, bounds-check with the source's
condition `ncell > n_cells`, and decode the cell per the node type.  For
a table-leaf cell the source returns a pointer to the payload inside the
page; the model copies those `data_size` bytes out. -/
def chidb_Btree_getCell (btn : BTreeNode) (ncell : Nat) :
    Except ChidbStatus BTreeCell :=
  let off := get2byte btn.data (btn.celloffset_pos + ncell * 2)
  if btn.n_cells < ncell then .error .ECELLNO
  else if btn.type = 5 then
    .ok (.tableInternal (get4byte btn.data off) (getVarint32 btn.data (off + 4)))
  else if btn.type = 13 then
    .ok (.tableLeaf (getVarint32 btn.data off) (getVarint32 btn.data (off + 4))
      (readBytes btn.data (off + 8) (getVarint32 btn.data off)))
  else if btn.type = 2 then
    .ok (.indexInternal (get4byte btn.data off) (get4byte btn.data (off + 8))
      (get4byte btn.data (off + 12)))
  else if btn.type = 10 then
    .ok (.indexLeaf (get4byte btn.data (off + 4)) (get4byte btn.data (off + 8)))
  else .error .EINTERNAL

theorem writeByte_ne {d : Nat → Nat} {off v a : Nat} (h : a ≠ off) :
    writeByte d off v a = d a := by
  simp [writeByte, h]

theorem put2byte_ne {d : Nat → Nat} {off v a : Nat}
    (h : a < off ∨ off + 2 ≤ a) : put2byte d off v a = d a := by
  unfold put2byte
  rw [writeByte_ne (by omega), writeByte_ne (by omega)]

theorem put4byte_ne {d : Nat → Nat} {off v a : Nat}
    (h : a < off ∨ off + 4 ≤ a) : put4byte d off v a = d a := by
  unfold put4byte
  rw [writeByte_ne (by omega), writeByte_ne (by omega),
      writeByte_ne (by omega), writeByte_ne (by omega)]

theorem memcpyBytes_ne : ∀ (l : List Nat) (d : Nat → Nat) (off a : Nat),
    (a < off ∨ off + l.length ≤ a) → memcpyBytes d off l a = d a := by
  intro l
  induction l with
  | nil => intro d off a _; rfl
  | cons b bs ih =>
      intro d off a h
      simp only [List.length_cons] at h
      show memcpyBytes (writeByte d off b) (off + 1) bs a = d a
      rw [ih _ _ _ (by omega), writeByte_ne (by omega)]

theorem memmoveBytes_ne {d : Nat → Nat} {dst src n a : Nat}
    (h : a < dst ∨ dst + n ≤ a) : memmoveBytes d dst src n a = d a := by
  simp only [memmoveBytes]
  rw [if_neg (by omega)]

theorem memmoveBytes_in {d : Nat → Nat} {dst src n a : Nat}
    (h1 : dst ≤ a) (h2 : a < dst + n) :
    memmoveBytes d dst src n a = d (src + (a - dst)) := by
  simp only [memmoveBytes]
  rw [if_pos ⟨h1, h2⟩]

theorem get2byte_congr {d d' : Nat → Nat} {off : Nat}
    (h0 : d' off = d off) (h1 : d' (off + 1) = d (off + 1)) :
    get2byte d' off = get2byte d off := by
  simp [get2byte, h0, h1]

theorem get4byte_congr {d d' : Nat → Nat} {off : Nat}
    (h0 : d' off = d off) (h1 : d' (off + 1) = d (off + 1))
    (h2 : d' (off + 2) = d (off + 2)) (h3 : d' (off + 3) = d (off + 3)) :
    get4byte d' off = get4byte d off := by
  simp [get4byte, h0, h1, h2, h3]

theorem get2byte_put2byte {d : Nat → Nat} {off v : Nat} (h : v < 65536) :
    get2byte (put2byte d off v) off = v := by
  unfold get2byte put2byte
  rw [writeByte_ne (by omega)]
  unfold writeByte
  rw [if_pos rfl, if_pos rfl]
  omega

theorem get4byte_put4byte {d : Nat → Nat} {off v : Nat} (h : v < 4294967296) :
    get4byte (put4byte d off v) off = v := by
  unfold get4byte put4byte
  rw [writeByte_ne (show off ≠ off + 3 by omega),
      writeByte_ne (show off ≠ off + 2 by omega),
      writeByte_ne (show off ≠ off + 1 by omega)]
  rw [writeByte_ne (show off + 1 ≠ off + 3 by omega),
      writeByte_ne (show off + 1 ≠ off + 2 by omega)]
  rw [writeByte_ne (show off + 2 ≠ off + 3 by omega)]
  unfold writeByte
  rw [if_pos rfl, if_pos rfl, if_pos rfl, if_pos rfl]
  omega

theorem memcpyBytes_get : ∀ (l : List Nat) (d : Nat → Nat) (off j : Nat)
    (h : j < l.length), memcpyBytes d off l (off + j) = l.get ⟨j, h⟩ % 256 := by
  intro l
  induction l with
  | nil => intro _ _ j h; simp at h
  | cons b bs ih =>
      intro d off j h
      show memcpyBytes (writeByte d off b) (off + 1) bs (off + j) = _
      match j with
      | 0 =>
          rw [memcpyBytes_ne _ _ _ _ (by omega)]
          simp [writeByte]
      | j' + 1 =>
          have : off + (j' + 1) = (off + 1) + j' := by omega
          rw [this, ih _ _ _ (by simpa using h)]
          rfl

/-- A concrete table-internal node with exactly one cell: the offset
array at bytes 8-9 points its single entry at offset 100, where a cell
with `child_page = 7` and `key = 5` is stored. -/
def oneCellNode : BTreeNode :=
  { data := fun a =>
      if a = 9 then 100 else
      if a = 103 then 7 else
      if a = 107 then 5 else 0
    npage := 2
    type := 5
    free_offset := 10
    n_cells := 1
    cells_offset := 100
    right_page := 3
    celloffset_pos := 8 }

/-- C5: the bounds check of `chidb_Btree_getCell` (`btree.c` line 455) is
`ncell > n_cells`, so the out-of-range index `ncell = n_cells` is
accepted: on a node with one cell, `getCell` at position 1 returns `Ok`
with a cell decoded from the stale offset-array slot (here offset 0,
which decodes as a zero cell) instead of failing with `CHIDB_ECELLNO`;
only from `ncell = n_cells + 1` on does it fail.  This contradicts the
claim that `BadCellNo` is returned exactly when `ncell ≥ n_cells`. -/
theorem getCell_accepts_ncells :
    oneCellNode.n_cells = 1 ∧
    chidb_Btree_getCell oneCellNode 1 = .ok (.tableInternal 0 0) ∧
    chidb_Btree_getCell oneCellNode 2 = .error .ECELLNO ∧
    chidb_Btree_getCell oneCellNode 0 = .ok (.tableInternal 7 5) :=
  ⟨rfl, rfl, rfl, rfl⟩

/-- The lowest address of the four constant bytes `{0x0B,0x03,0x04,0x04}`
of the cell at position `i` of an index node: the cell starts at the
offset stored in slot `i` of the offset array; for an index-internal
cell the constants sit 4 bytes in, for an index-leaf cell at its
start (spec §3). -/
def cellConstLo (btn : BTreeNode) (i : Nat) : Nat :=
  get2byte btn.data (btn.celloffset_pos + i * 2) + (if btn.type = 2 then 4 else 0)

/-- C10: `chidb_Btree_getCell` on an index-internal or index-leaf node
decodes `child_page`, `key` and `keyPk` from their fixed offsets only and
never inspects the four constant bytes that `insertCell` writes: two
nodes that agree on everything except the bytes at those four positions
yield identical `getCell` results, so a cell with corrupted constant
bytes is decoded without any error. -/
theorem getCell_ignores_constant_bytes (btn btn' : BTreeNode) (i : Nat)
    (ht : btn.type = 2 ∨ btn.type = 10)
    (ht' : btn'.type = btn.type)
    (hn : btn'.n_cells = btn.n_cells)
    (hp : btn'.celloffset_pos = btn.celloffset_pos)
    (hlo : btn.celloffset_pos + i * 2 + 1 <
      get2byte btn.data (btn.celloffset_pos + i * 2))
    (hagree : ∀ a, a < cellConstLo btn i ∨ cellConstLo btn i + 4 ≤ a →
      btn'.data a = btn.data a) :
    chidb_Btree_getCell btn' i = chidb_Btree_getCell btn i := by
  rcases ht with h2 | h10
  · -- index-internal: the constants occupy [off+4, off+8)
    have hc : cellConstLo btn i
        = get2byte btn.data (btn.celloffset_pos + i * 2) + 4 := by
      unfold cellConstLo
      rw [if_pos h2]
    rw [hc] at hagree
    have hoff : get2byte btn'.data (btn'.celloffset_pos + i * 2)
        = get2byte btn.data (btn.celloffset_pos + i * 2) := by
      rw [hp]
      exact get2byte_congr (hagree _ (by omega)) (hagree _ (by omega))
    unfold chidb_Btree_getCell
    rw [hoff, hn, ht', h2]
    norm_num
    rw [get4byte_congr (d := btn.data) (hagree _ (by omega)) (hagree _ (by omega))
        (hagree _ (by omega)) (hagree _ (by omega)),
      get4byte_congr (d := btn.data) (hagree _ (by omega)) (hagree _ (by omega))
        (hagree _ (by omega)) (hagree _ (by omega)),
      get4byte_congr (d := btn.data) (hagree _ (by omega)) (hagree _ (by omega))
        (hagree _ (by omega)) (hagree _ (by omega))]
  · -- index-leaf: the constants occupy [off, off+4)
    have hc : cellConstLo btn i
        = get2byte btn.data (btn.celloffset_pos + i * 2) := by
      unfold cellConstLo
      rw [if_neg (by rw [h10]; omega)]
      omega
    rw [hc] at hagree
    have hoff : get2byte btn'.data (btn'.celloffset_pos + i * 2)
        = get2byte btn.data (btn.celloffset_pos + i * 2) := by
      rw [hp]
      exact get2byte_congr (hagree _ (by omega)) (hagree _ (by omega))
    unfold chidb_Btree_getCell
    rw [hoff, hn, ht', h10]
    norm_num
    rw [get4byte_congr (d := btn.data) (hagree _ (by omega)) (hagree _ (by omega))
        (hagree _ (by omega)) (hagree _ (by omega)),
      get4byte_congr (d := btn.data) (hagree _ (by omega)) (hagree _ (by omega))
        (hagree _ (by omega)) (hagree _ (by omega))]

/-- A concrete index-leaf node with one cell at offset 100: constants at
100-103, `key = 7` at 104-107, `keyPk = 9` at 108-111. -/
def idxLeafNode : BTreeNode :=
  { data := fun a =>
      if a = 9 then 100 else
      if a = 100 then 11 else if a = 101 then 3 else
      if a = 102 then 4 else if a = 103 then 4 else
      if a = 107 then 7 else
      if a = 111 then 9 else 0
    npage := 2
    type := 10
    free_offset := 10
    n_cells := 1
    cells_offset := 100
    right_page := 0
    celloffset_pos := 8 }

/-- `idxLeafNode` with its four constant bytes clobbered to 0xFF. -/
def idxLeafNodeBad : BTreeNode :=
  { idxLeafNode with
    data := fun a => if 100 ≤ a ∧ a < 104 then 255 else idxLeafNode.data a }

theorem getCell_ignores_constant_bytes_witness :
    chidb_Btree_getCell idxLeafNodeBad 0 = chidb_Btree_getCell idxLeafNode 0 ∧
    chidb_Btree_getCell idxLeafNode 0 = .ok (.indexLeaf 7 9) ∧
    idxLeafNodeBad.data 100 ≠ idxLeafNode.data 100 :=
  ⟨getCell_ignores_constant_bytes idxLeafNode idxLeafNodeBad 0
      (Or.inr rfl) rfl rfl rfl (by decide)
      (fun a ha => by
        have hc : cellConstLo idxLeafNode 0 = 100 := by decide
        rw [hc] at ha
        show (if 100 ≤ a ∧ a < 104 then 255 else idxLeafNode.data a)
          = idxLeafNode.data a
        rw [if_neg (by omega)]),
   rfl, by decide⟩

/-- The cell serialization only touches the bytes of the region
`[cells_offset − size, cells_offset)` into which the cell is laid out. -/
theorem serializeCell_ne (t co : Nat) (c : BTreeCell) (d : Nat → Nat) (a : Nat)
    (hsz : cellDiskSize t c ≤ co)
    (h : a < co - cellDiskSize t c ∨ co ≤ a) :
    serializeCell d t co c a = d a := by
  by_cases h13 : t = 13
  · have hsz' : c.word0 + 8 ≤ co := by
      rw [cellDiskSize, if_pos h13] at hsz
      exact hsz
    have ha : a < co - (c.word0 + 8) ∨ co ≤ a := by
      rw [cellDiskSize, if_pos h13] at h
      exact h
    have hlen : (c.payload.take c.word0).length ≤ c.word0 := by
      rw [List.length_take]
      omega
    simp only [serializeCell, if_pos h13, putVarint32]
    rw [memcpyBytes_ne _ _ _ _ (by omega), put4byte_ne (by omega),
      put4byte_ne (by omega)]
  · by_cases h5 : t = 5
    · have hsz' : 8 ≤ co := by
        rw [cellDiskSize, if_neg h13, if_pos h5] at hsz
        exact hsz
      have ha : a < co - 8 ∨ co ≤ a := by
        rw [cellDiskSize, if_neg h13, if_pos h5] at h
        exact h
      simp only [serializeCell, if_neg h13, if_pos h5, putVarint32]
      rw [put4byte_ne (by omega), put4byte_ne (by omega)]
    · by_cases h2 : t = 2
      · have hsz' : 16 ≤ co := by
          rw [cellDiskSize, if_neg h13, if_neg h5, if_pos h2] at hsz
          exact hsz
        have ha : a < co - 16 ∨ co ≤ a := by
          rw [cellDiskSize, if_neg h13, if_neg h5, if_pos h2] at h
          exact h
        simp only [serializeCell, if_neg h13, if_neg h5, if_pos h2]
        rw [put4byte_ne (by omega), put4byte_ne (by omega),
          memcpyBytes_ne _ _ _ _ (by simp; omega), put4byte_ne (by omega)]
      · by_cases h10 : t = 10
        · have hsz' : 12 ≤ co := by
            rw [cellDiskSize, if_neg h13, if_neg h5, if_neg h2, if_pos h10] at hsz
            exact hsz
          have ha : a < co - 12 ∨ co ≤ a := by
            rw [cellDiskSize, if_neg h13, if_neg h5, if_neg h2, if_pos h10] at h
            exact h
          simp only [serializeCell, if_neg h13, if_neg h5, if_neg h2, if_pos h10]
          rw [put4byte_ne (by omega), put4byte_ne (by omega),
            memcpyBytes_ne _ _ _ _ (by simp; omega)]
        · simp only [serializeCell, if_neg h13, if_neg h5, if_neg h2, if_neg h10]

/-- Slot `ncell` of the offset array holds the new `cells_offset` after
the insertion. -/
theorem insertedData_slot (btn : BTreeNode) (i : Nat) (c : BTreeCell)
    (hv : btn.cells_offset - cellDiskSize btn.type c < 65536) :
    get2byte (insertedData btn i c) (btn.celloffset_pos + i * 2)
      = btn.cells_offset - cellDiskSize btn.type c := by
  unfold insertedData
  exact get2byte_put2byte hv

/-- Bytes below slot `i` of the offset array (and below the new cell)
are untouched by the insertion. -/
theorem insertedData_below (btn : BTreeNode) (i : Nat) (c : BTreeCell) (a : Nat)
    (hsz : cellDiskSize btn.type c ≤ btn.cells_offset)
    (hcell : a < btn.cells_offset - cellDiskSize btn.type c)
    (ha : a < btn.celloffset_pos + i * 2) :
    insertedData btn i c a = btn.data a := by
  unfold insertedData
  rw [put2byte_ne (by omega), memmoveBytes_ne (by omega),
    serializeCell_ne _ _ _ _ _ hsz (by omega)]

/-- Bytes in the shifted tail of the offset array read the byte two
positions lower of the original store (the `memmove` of the source). -/
theorem insertedData_shift (btn : BTreeNode) (i : Nat) (c : BTreeCell) (a : Nat)
    (hsz : cellDiskSize btn.type c ≤ btn.cells_offset)
    (hcell : a < btn.cells_offset - cellDiskSize btn.type c)
    (hlo : btn.celloffset_pos + i * 2 + 2 ≤ a)
    (hhi : a < btn.celloffset_pos + btn.n_cells * 2 + 2)
    (hi : i ≤ btn.n_cells) :
    insertedData btn i c a = btn.data (a - 2) := by
  unfold insertedData
  rw [put2byte_ne (by omega), memmoveBytes_in (by omega) (by omega)]
  have e : btn.celloffset_pos + i * 2 + (a - (btn.celloffset_pos + i * 2 + 2))
      = a - 2 := by omega
  rw [e, serializeCell_ne _ _ _ _ _ hsz (by omega)]

/-- Bytes at or above the newly laid-out cell read the serialized cell
region directly: the offset-array shift happens strictly below it. -/
theorem insertedData_cell (btn : BTreeNode) (i : Nat) (c : BTreeCell) (a : Nat)
    (hfree : btn.celloffset_pos + btn.n_cells * 2 + 2
      ≤ btn.cells_offset - cellDiskSize btn.type c)
    (hcell : btn.cells_offset - cellDiskSize btn.type c ≤ a)
    (hi : i ≤ btn.n_cells) :
    insertedData btn i c a
      = serializeCell btn.data btn.type btn.cells_offset c a := by
  unfold insertedData
  rw [put2byte_ne (by omega), memmoveBytes_ne (by omega)]

/-- C7: a single `chidb_Btree_insertCell` on a node with sufficient free
space decreases `cells_offset` by the cell's on-disk size, increases
`free_offset` by 2 and `n_cells` by 1, stores the new `cells_offset` in
slot `i` of the offset array, shifts the slots `i..n_cells-1` one
position right, leaves the slots before `i` alone, and leaves every other
node field (`type`, `right_page`, page number, array position)
unchanged.  `harr` states that the offset array ends exactly at
`free_offset` (the node-format invariant, spec §3) and `hspace` that the
free region holds the cell plus its 2-byte array slot. -/
theorem insertCell_effects (btn : BTreeNode) (i : Nat) (c : BTreeCell)
    (hi : i ≤ btn.n_cells)
    (htype : btn.type = 13 ∨ btn.type = 5 ∨ btn.type = 2 ∨ btn.type = 10)
    (harr : btn.celloffset_pos + 2 * btn.n_cells = btn.free_offset)
    (hspace : btn.free_offset + 2 + cellDiskSize btn.type c ≤ btn.cells_offset)
    (hco : btn.cells_offset < 65536) :
    ∃ btn', chidb_Btree_insertCell btn i c = .ok btn' ∧
      btn'.cells_offset = btn.cells_offset - cellDiskSize btn.type c ∧
      btn'.free_offset = btn.free_offset + 2 ∧
      btn'.n_cells = btn.n_cells + 1 ∧
      btn'.type = btn.type ∧
      btn'.right_page = btn.right_page ∧
      btn'.npage = btn.npage ∧
      btn'.celloffset_pos = btn.celloffset_pos ∧
      get2byte btn'.data (btn.celloffset_pos + i * 2)
        = btn.cells_offset - cellDiskSize btn.type c ∧
      (∀ j, j < i → get2byte btn'.data (btn.celloffset_pos + j * 2)
        = get2byte btn.data (btn.celloffset_pos + j * 2)) ∧
      (∀ j, i ≤ j → j < btn.n_cells →
        get2byte btn'.data (btn.celloffset_pos + (j + 1) * 2)
          = get2byte btn.data (btn.celloffset_pos + j * 2)) := by
  have hsz : cellDiskSize btn.type c ≤ btn.cells_offset := by omega
  unfold chidb_Btree_insertCell
  rw [if_neg (by omega), if_neg (by tauto)]
  refine ⟨_, rfl, rfl, rfl, rfl, rfl, rfl, rfl, rfl, ?_, ?_, ?_⟩
  · exact insertedData_slot btn i c (by omega)
  · intro j hj
    show get2byte (insertedData btn i c) _ = _
    unfold get2byte
    rw [insertedData_below btn i c _ hsz (by omega) (by omega),
      insertedData_below btn i c _ hsz (by omega) (by omega)]
  · intro j hij hjn
    show get2byte (insertedData btn i c) _ = _
    unfold get2byte
    rw [insertedData_shift btn i c _ hsz (by omega) (by omega) (by omega) hi,
      insertedData_shift btn i c _ hsz (by omega) (by omega) (by omega) hi]
    have e0 : btn.celloffset_pos + (j + 1) * 2 - 2
        = btn.celloffset_pos + j * 2 := by omega
    have e1 : btn.celloffset_pos + (j + 1) * 2 + 1 - 2
        = btn.celloffset_pos + j * 2 + 1 := by omega
    rw [e0, e1]

/-- A concrete table-internal node with one cell (offset-array slot 0 at
bytes 12-13 pointing to 200) for exercising `insertCell_effects`. -/
def tblIntNode : BTreeNode :=
  { data := fun a => if a = 13 then 200 else 0
    npage := 2
    type := 5
    free_offset := 14
    n_cells := 1
    cells_offset := 200
    right_page := 6
    celloffset_pos := 12 }

theorem insertCell_effects_witness :
    ((0 : Nat) ≤ tblIntNode.n_cells ∧
     (tblIntNode.type = 13 ∨ tblIntNode.type = 5 ∨ tblIntNode.type = 2 ∨
       tblIntNode.type = 10) ∧
     tblIntNode.celloffset_pos + 2 * tblIntNode.n_cells = tblIntNode.free_offset ∧
     tblIntNode.free_offset + 2
       + cellDiskSize tblIntNode.type (.tableInternal 3 9)
       ≤ tblIntNode.cells_offset ∧
     tblIntNode.cells_offset < 65536) ∧
    (∃ btn', chidb_Btree_insertCell tblIntNode 0 (.tableInternal 3 9) = .ok btn' ∧
      btn'.cells_offset = tblIntNode.cells_offset
        - cellDiskSize tblIntNode.type (.tableInternal 3 9) ∧
      btn'.free_offset = tblIntNode.free_offset + 2 ∧
      btn'.n_cells = tblIntNode.n_cells + 1 ∧
      btn'.type = tblIntNode.type ∧
      btn'.right_page = tblIntNode.right_page ∧
      btn'.npage = tblIntNode.npage ∧
      btn'.celloffset_pos = tblIntNode.celloffset_pos ∧
      get2byte btn'.data (tblIntNode.celloffset_pos + 0 * 2)
        = tblIntNode.cells_offset - cellDiskSize tblIntNode.type (.tableInternal 3 9) ∧
      (∀ j, j < 0 → get2byte btn'.data (tblIntNode.celloffset_pos + j * 2)
        = get2byte tblIntNode.data (tblIntNode.celloffset_pos + j * 2)) ∧
      (∀ j, 0 ≤ j → j < tblIntNode.n_cells →
        get2byte btn'.data (tblIntNode.celloffset_pos + (j + 1) * 2)
          = get2byte tblIntNode.data (tblIntNode.celloffset_pos + j * 2))) :=
  ⟨⟨by decide, by decide, by decide, by decide, by decide⟩,
   insertCell_effects tblIntNode 0 (.tableInternal 3 9)
     (by decide) (by decide) (by decide) (by decide) (by decide)⟩

theorem readBytes_congr {d d' : Nat → Nat} {off n : Nat}
    (h : ∀ j, j < n → d' (off + j) = d (off + j)) :
    readBytes d' off n = readBytes d off n := by
  unfold readBytes
  apply List.map_congr_left
  intro j hj
  exact h j (List.mem_range.mp hj)

theorem readBytes_memcpy (l : List Nat) (d : Nat → Nat) (off : Nat)
    (hb : ∀ b ∈ l, b < 256) :
    readBytes (memcpyBytes d off l) off l.length = l := by
  apply List.ext_getElem
  · simp [readBytes]
  · intro j h1 h2
    simp only [readBytes, List.getElem_map, List.getElem_range]
    rw [memcpyBytes_get l d off j h2]
    simp only [List.get_eq_getElem]
    exact Nat.mod_eq_of_lt (hb _ (List.getElem_mem h2))

/-- A 4-byte read window is unaffected by a disjoint 4-byte write. -/
theorem get4byte_put4byte_ne {d : Nat → Nat} {off off' v : Nat}
    (h : off + 4 ≤ off' ∨ off' + 4 ≤ off) :
    get4byte (put4byte d off' v) off = get4byte d off :=
  get4byte_congr (put4byte_ne (by omega)) (put4byte_ne (by omega))
    (put4byte_ne (by omega)) (put4byte_ne (by omega))

/-- A 4-byte read window is unaffected by a disjoint `memcpy`. -/
theorem get4byte_memcpy_ne (l : List Nat) (d : Nat → Nat) (off off' : Nat)
    (h : off + 4 ≤ off' ∨ off' + l.length ≤ off) :
    get4byte (memcpyBytes d off' l) off = get4byte d off :=
  get4byte_congr (memcpyBytes_ne _ _ _ _ (by omega))
    (memcpyBytes_ne _ _ _ _ (by omega)) (memcpyBytes_ne _ _ _ _ (by omega))
    (memcpyBytes_ne _ _ _ _ (by omega))

/-- A legally-sized cell: variant fields within their 32-bit on-disk
range, a table-leaf payload of exactly `data_size` bytes (bytes, i.e.
values below 256). -/
def cellWF : BTreeCell → Prop
  | .tableInternal child k => child < 4294967296 ∧ k < 4294967296
  | .tableLeaf ds k l => ds = l.length ∧ k < 4294967296 ∧ ∀ b ∈ l, b < 256
  | .indexInternal child k pk =>
      child < 4294967296 ∧ k < 4294967296 ∧ pk < 4294967296
  | .indexLeaf k pk => k < 4294967296 ∧ pk < 4294967296

/-- C6: for every node type, every legally-sized cell of the matching
variant and every valid position `i ≤ n_cells`, `insertCell(node, i, c)`
followed by `getCell` at position `i` returns exactly `c`: the same key,
the same variant fields, and (for a table-leaf cell) the same payload
bytes.  `harr`/`hspace` state that the node is well-formed and has room
for the cell and its offset-array slot. -/
theorem insertCell_getCell_roundtrip (btn : BTreeNode) (i : Nat) (c : BTreeCell)
    (hi : i ≤ btn.n_cells)
    (hctype : c.ctype = btn.type)
    (harr : btn.celloffset_pos + 2 * btn.n_cells = btn.free_offset)
    (hspace : btn.free_offset + 2 + cellDiskSize btn.type c ≤ btn.cells_offset)
    (hco : btn.cells_offset < 65536)
    (hwf : cellWF c) :
    (chidb_Btree_insertCell btn i c).bind
      (fun btn2 => chidb_Btree_getCell btn2 i) = .ok c := by
  rcases c with ⟨child, key⟩ | ⟨ds, key, payload⟩ | ⟨child, key, pk⟩ | ⟨key, pk⟩
  · -- table-internal cell
    obtain ⟨hc32, hk32⟩ := hwf
    simp only [BTreeCell.ctype] at hctype
    have hT : btn.type = 5 := hctype.symm
    have hsize : cellDiskSize btn.type (.tableInternal child key) = 8 := by
      rw [hT]
      simp [cellDiskSize]
    unfold chidb_Btree_insertCell
    rw [if_neg (by omega), if_neg (by rw [hT]; decide)]
    simp only [Except.bind]
    unfold chidb_Btree_getCell
    dsimp only
    rw [if_neg (by omega), if_pos hT]
    rw [insertedData_slot btn i _ (by omega), hsize]
    have hA : get4byte (insertedData btn i (.tableInternal child key))
        (btn.cells_offset - 8)
        = get4byte (serializeCell btn.data btn.type btn.cells_offset
          (.tableInternal child key)) (btn.cells_offset - 8) :=
      get4byte_congr
        (insertedData_cell btn i _ _ (by omega) (by omega) hi)
        (insertedData_cell btn i _ _ (by omega) (by omega) hi)
        (insertedData_cell btn i _ _ (by omega) (by omega) hi)
        (insertedData_cell btn i _ _ (by omega) (by omega) hi)
    have hB : getVarint32 (insertedData btn i (.tableInternal child key))
        (btn.cells_offset - 8 + 4)
        = getVarint32 (serializeCell btn.data btn.type btn.cells_offset
          (.tableInternal child key)) (btn.cells_offset - 8 + 4) :=
      get4byte_congr
        (insertedData_cell btn i _ _ (by omega) (by omega) hi)
        (insertedData_cell btn i _ _ (by omega) (by omega) hi)
        (insertedData_cell btn i _ _ (by omega) (by omega) hi)
        (insertedData_cell btn i _ _ (by omega) (by omega) hi)
    have hchild : get4byte (serializeCell btn.data btn.type btn.cells_offset
        (.tableInternal child key)) (btn.cells_offset - 8) = child := by
      rw [hT]
      simp only [serializeCell, BTreeCell.word0, BTreeCell.ckey, putVarint32]
      norm_num
      rw [get4byte_put4byte_ne (by omega)]
      exact get4byte_put4byte hc32
    have hkey : getVarint32 (serializeCell btn.data btn.type btn.cells_offset
        (.tableInternal child key)) (btn.cells_offset - 8 + 4) = key := by
      rw [hT]
      simp only [serializeCell, BTreeCell.word0, BTreeCell.ckey, putVarint32,
        getVarint32]
      norm_num
      exact get4byte_put4byte hk32
    rw [hA, hB, hchild, hkey]
  · -- table-leaf cell
    obtain ⟨hds, hk32, hbytes⟩ := hwf
    simp only [BTreeCell.ctype] at hctype
    have hT : btn.type = 13 := hctype.symm
    have hsize : cellDiskSize btn.type (.tableLeaf ds key payload) = ds + 8 := by
      rw [hT]
      simp [cellDiskSize, BTreeCell.word0]
    have hds32 : ds < 4294967296 := by omega
    unfold chidb_Btree_insertCell
    rw [if_neg (by omega), if_neg (by rw [hT]; decide)]
    simp only [Except.bind]
    unfold chidb_Btree_getCell
    dsimp only
    rw [if_neg (by omega), if_neg (by rw [hT]; decide), if_pos hT]
    rw [insertedData_slot btn i _ (by omega), hsize]
    have hA : getVarint32 (insertedData btn i (.tableLeaf ds key payload))
        (btn.cells_offset - (ds + 8))
        = getVarint32 (serializeCell btn.data btn.type btn.cells_offset
          (.tableLeaf ds key payload)) (btn.cells_offset - (ds + 8)) :=
      get4byte_congr
        (insertedData_cell btn i _ _ (by omega) (by omega) hi)
        (insertedData_cell btn i _ _ (by omega) (by omega) hi)
        (insertedData_cell btn i _ _ (by omega) (by omega) hi)
        (insertedData_cell btn i _ _ (by omega) (by omega) hi)
    have hB : getVarint32 (insertedData btn i (.tableLeaf ds key payload))
        (btn.cells_offset - (ds + 8) + 4)
        = getVarint32 (serializeCell btn.data btn.type btn.cells_offset
          (.tableLeaf ds key payload)) (btn.cells_offset - (ds + 8) + 4) :=
      get4byte_congr
        (insertedData_cell btn i _ _ (by omega) (by omega) hi)
        (insertedData_cell btn i _ _ (by omega) (by omega) hi)
        (insertedData_cell btn i _ _ (by omega) (by omega) hi)
        (insertedData_cell btn i _ _ (by omega) (by omega) hi)
    have e : btn.cells_offset - (ds + 8) = btn.cells_offset - ds - 8 := by
      omega
    have hdsv : getVarint32 (serializeCell btn.data btn.type btn.cells_offset
        (.tableLeaf ds key payload)) (btn.cells_offset - (ds + 8)) = ds := by
      rw [hT, e]
      simp only [serializeCell, BTreeCell.word0, BTreeCell.ckey,
        BTreeCell.payload, putVarint32, getVarint32]
      norm_num
      rw [get4byte_memcpy_ne _ _ _ _ (Or.inl (by omega)),
        get4byte_put4byte_ne (by omega)]
      exact get4byte_put4byte hds32
    have hkey : getVarint32 (serializeCell btn.data btn.type btn.cells_offset
        (.tableLeaf ds key payload)) (btn.cells_offset - (ds + 8) + 4) = key := by
      rw [hT, e]
      simp only [serializeCell, BTreeCell.word0, BTreeCell.ckey,
        BTreeCell.payload, putVarint32, getVarint32]
      norm_num
      rw [get4byte_memcpy_ne _ _ _ _ (Or.inl (by omega))]
      exact get4byte_put4byte hk32
    have hpl : readBytes (insertedData btn i (.tableLeaf ds key payload))
        (btn.cells_offset - (ds + 8) + 8) ds = payload := by
      rw [readBytes_congr (fun j hj =>
        insertedData_cell btn i (.tableLeaf ds key payload)
          (btn.cells_offset - (ds + 8) + 8 + j) (by omega) (by omega) hi)]
      rw [hT, e]
      simp only [serializeCell, BTreeCell.word0, BTreeCell.ckey,
        BTreeCell.payload, putVarint32]
      norm_num
      have ht : payload.take ds = payload := by
        rw [hds]
        exact List.take_length payload
      rw [ht, hds]
      exact readBytes_memcpy payload _ _ hbytes
    rw [hA, hdsv, hB, hkey, hpl]
  · -- index-internal cell
    obtain ⟨hc32, hk32, hpk32⟩ := hwf
    simp only [BTreeCell.ctype] at hctype
    have hT : btn.type = 2 := hctype.symm
    have hsize : cellDiskSize btn.type (.indexInternal child key pk) = 16 := by
      rw [hT]
      simp [cellDiskSize]
    unfold chidb_Btree_insertCell
    rw [if_neg (by omega), if_neg (by rw [hT]; decide)]
    simp only [Except.bind]
    unfold chidb_Btree_getCell
    dsimp only
    rw [if_neg (by omega), if_neg (by rw [hT]; decide),
      if_neg (by rw [hT]; decide), if_pos hT]
    rw [insertedData_slot btn i _ (by omega), hsize]
    have hA : get4byte (insertedData btn i (.indexInternal child key pk))
        (btn.cells_offset - 16)
        = get4byte (serializeCell btn.data btn.type btn.cells_offset
          (.indexInternal child key pk)) (btn.cells_offset - 16) :=
      get4byte_congr
        (insertedData_cell btn i _ _ (by omega) (by omega) hi)
        (insertedData_cell btn i _ _ (by omega) (by omega) hi)
        (insertedData_cell btn i _ _ (by omega) (by omega) hi)
        (insertedData_cell btn i _ _ (by omega) (by omega) hi)
    have hB : get4byte (insertedData btn i (.indexInternal child key pk))
        (btn.cells_offset - 16 + 8)
        = get4byte (serializeCell btn.data btn.type btn.cells_offset
          (.indexInternal child key pk)) (btn.cells_offset - 16 + 8) :=
      get4byte_congr
        (insertedData_cell btn i _ _ (by omega) (by omega) hi)
        (insertedData_cell btn i _ _ (by omega) (by omega) hi)
        (insertedData_cell btn i _ _ (by omega) (by omega) hi)
        (insertedData_cell btn i _ _ (by omega) (by omega) hi)
    have hC : get4byte (insertedData btn i (.indexInternal child key pk))
        (btn.cells_offset - 16 + 12)
        = get4byte (serializeCell btn.data btn.type btn.cells_offset
          (.indexInternal child key pk)) (btn.cells_offset - 16 + 12) :=
      get4byte_congr
        (insertedData_cell btn i _ _ (by omega) (by omega) hi)
        (insertedData_cell btn i _ _ (by omega) (by omega) hi)
        (insertedData_cell btn i _ _ (by omega) (by omega) hi)
        (insertedData_cell btn i _ _ (by omega) (by omega) hi)
    have hchild : get4byte (serializeCell btn.data btn.type btn.cells_offset
        (.indexInternal child key pk)) (btn.cells_offset - 16) = child := by
      rw [hT]
      simp only [serializeCell, BTreeCell.word0, BTreeCell.word1,
        BTreeCell.ckey]
      norm_num
      rw [get4byte_put4byte_ne (by omega), get4byte_put4byte_ne (by omega),
        get4byte_memcpy_ne _ _ _ _ (Or.inl (by omega))]
      exact get4byte_put4byte hc32
    have hkey : get4byte (serializeCell btn.data btn.type btn.cells_offset
        (.indexInternal child key pk)) (btn.cells_offset - 16 + 8) = key := by
      rw [hT]
      simp only [serializeCell, BTreeCell.word0, BTreeCell.word1,
        BTreeCell.ckey]
      norm_num
      rw [get4byte_put4byte_ne (by omega)]
      exact get4byte_put4byte hk32
    have hpk : get4byte (serializeCell btn.data btn.type btn.cells_offset
        (.indexInternal child key pk)) (btn.cells_offset - 16 + 12) = pk := by
      rw [hT]
      simp only [serializeCell, BTreeCell.word0, BTreeCell.word1,
        BTreeCell.ckey]
      norm_num
      exact get4byte_put4byte hpk32
    rw [hA, hB, hC, hchild, hkey, hpk]
  · -- index-leaf cell
    obtain ⟨hk32, hpk32⟩ := hwf
    simp only [BTreeCell.ctype] at hctype
    have hT : btn.type = 10 := hctype.symm
    have hsize : cellDiskSize btn.type (.indexLeaf key pk) = 12 := by
      rw [hT]
      simp [cellDiskSize]
    unfold chidb_Btree_insertCell
    rw [if_neg (by omega), if_neg (by rw [hT]; decide)]
    simp only [Except.bind]
    unfold chidb_Btree_getCell
    dsimp only
    rw [if_neg (by omega), if_neg (by rw [hT]; decide),
      if_neg (by rw [hT]; decide), if_neg (by rw [hT]; decide), if_pos hT]
    rw [insertedData_slot btn i _ (by omega), hsize]
    have hA : get4byte (insertedData btn i (.indexLeaf key pk))
        (btn.cells_offset - 12 + 4)
        = get4byte (serializeCell btn.data btn.type btn.cells_offset
          (.indexLeaf key pk)) (btn.cells_offset - 12 + 4) :=
      get4byte_congr
        (insertedData_cell btn i _ _ (by omega) (by omega) hi)
        (insertedData_cell btn i _ _ (by omega) (by omega) hi)
        (insertedData_cell btn i _ _ (by omega) (by omega) hi)
        (insertedData_cell btn i _ _ (by omega) (by omega) hi)
    have hB : get4byte (insertedData btn i (.indexLeaf key pk))
        (btn.cells_offset - 12 + 8)
        = get4byte (serializeCell btn.data btn.type btn.cells_offset
          (.indexLeaf key pk)) (btn.cells_offset - 12 + 8) :=
      get4byte_congr
        (insertedData_cell btn i _ _ (by omega) (by omega) hi)
        (insertedData_cell btn i _ _ (by omega) (by omega) hi)
        (insertedData_cell btn i _ _ (by omega) (by omega) hi)
        (insertedData_cell btn i _ _ (by omega) (by omega) hi)
    have hkey : get4byte (serializeCell btn.data btn.type btn.cells_offset
        (.indexLeaf key pk)) (btn.cells_offset - 12 + 4) = key := by
      rw [hT]
      simp only [serializeCell, BTreeCell.word0, BTreeCell.ckey]
      norm_num
      rw [get4byte_put4byte_ne (by omega)]
      exact get4byte_put4byte hk32
    have hpk : get4byte (serializeCell btn.data btn.type btn.cells_offset
        (.indexLeaf key pk)) (btn.cells_offset - 12 + 8) = pk := by
      rw [hT]
      simp only [serializeCell, BTreeCell.word0, BTreeCell.ckey]
      norm_num
      exact get4byte_put4byte hpk32
    rw [hA, hB, hkey, hpk]

/-- An empty table-leaf node (offset array at 8, cell area top at 100)
for exercising the cell round-trip. -/
def rtNode : BTreeNode :=
  { data := fun _ => 0
    npage := 2
    type := 13
    free_offset := 8
    n_cells := 0
    cells_offset := 100
    right_page := 0
    celloffset_pos := 8 }

theorem insertCell_getCell_roundtrip_witness :
    ((0 : Nat) ≤ rtNode.n_cells ∧
     (BTreeCell.tableLeaf 2 42 [222, 173]).ctype = rtNode.type ∧
     rtNode.celloffset_pos + 2 * rtNode.n_cells = rtNode.free_offset ∧
     rtNode.free_offset + 2
       + cellDiskSize rtNode.type (.tableLeaf 2 42 [222, 173])
       ≤ rtNode.cells_offset ∧
     rtNode.cells_offset < 65536 ∧
     cellWF (.tableLeaf 2 42 [222, 173])) ∧
    (chidb_Btree_insertCell rtNode 0 (.tableLeaf 2 42 [222, 173])).bind
      (fun btn2 => chidb_Btree_getCell btn2 0)
      = .ok (.tableLeaf 2 42 [222, 173]) :=
  ⟨⟨by decide, by decide, by decide, by decide, by decide,
    ⟨rfl, by norm_num, by decide⟩⟩,
   insertCell_getCell_roundtrip rtNode 0 (.tableLeaf 2 42 [222, 173])
     (by decide) (by decide) (by decide) (by decide) (by decide)
     ⟨rfl, by norm_num, by decide⟩⟩

/-- What one iteration of the cell-scanning loop of `chidb_Btree_find`
(`btree.c` lines 595-631) decides. -/
inductive FindStep where
  | found (data : List Nat) (size : Nat)
  | descend (child : Nat)
  | fallthrough
  | fail (e : ChidbStatus)

/-- The loop of `chidb_Btree_find`: scan cells `i, i+1, ...` (`rem`
iterations remain).  On a table leaf with a matching key, return the
payload; if `key ≤ cell.key`, return `NotFound` on a leaf and descend
into `cell.fields.tableInternal.child_page` (the first union word)
otherwise; when the loop completes, fall through. -/
def findLoop (btn : BTreeNode) (key : Nat) : Nat → Nat → FindStep
  | 0, _ => .fallthrough
  | rem + 1, i =>
    match chidb_Btree_getCell btn i with
    | .error _ => .fail .ECELLNO
    | .ok cell =>
      if cell.ckey = key ∧ btn.type = 13 then
        .found cell.payload cell.word0
      else if key ≤ cell.ckey then
        if btn.type = 13 then .fail .ENOTFOUND
        else .descend cell.word0
      else findLoop btn key rem (i + 1)

/-- `chidb_Btree_find` (`btree.c` lines 583-642), with explicit fuel for
the recursive descent (the C recursion is bounded by the tree height;
every theorem below supplies ample fuel, and `EFUEL` never arises). -/
def chidb_Btree_find : Nat → DBFile → Nat → Nat →
    Except ChidbStatus (List Nat × Nat)
  | 0, _, _, _ => .error .EFUEL
  | fuel + 1, f, npage, key =>
    match chidb_Btree_getNodeByPage f npage with
    | .error e => .error e
    | .ok btn =>
      match findLoop btn key btn.n_cells 0 with
      | .found data size => .ok (data, size)
      | .descend child => chidb_Btree_find fuel f child key
      | .fail e => .error e
      | .fallthrough =>
        if btn.type ≠ 13 then chidb_Btree_find fuel f btn.right_page key
        else .error .ENOTFOUND

/-- `notEnoughSpace` (`btree.c` lines 710-735).  Despite its name (and
the comment above it in the source), it returns 1 exactly when the node
HAS room for the cell: the variable `need` is assigned the free space
`cells_offset − free_offset` (a C `int` subtraction, hence `Int` here),
the variable `have` the cell's disk size, and the function returns 1
when `need ≥ have`. -/
def notEnoughSpace (btn : BTreeNode) (btc : BTreeCell) : Nat :=
  let need : Int := (btn.cells_offset : Int) - (btn.free_offset : Int)
  let hav : Int :=
    if btc.ctype = 13 then 8 + (btc.word0 : Int)
    else if btc.ctype = 5 then 8
    else if btc.ctype = 10 then 12
    else 16
  if need ≥ hav then 1 else 0

/-- `chidb_Btree_insertNonFull` (`btree.c` lines 896-901): the body is
the empty stub `/* Your code goes here */` — it modifies nothing and
returns `CHIDB_OK`. -/
def chidb_Btree_insertNonFull (f : DBFile) (_npage : Nat) (_btc : BTreeCell) :
    DBFile × ChidbStatus :=
  (f, .OK)

/-- `chidb_Btree_split` (`btree.c` lines 927-932): the body is the empty
stub — it modifies nothing, leaves its out-parameter unassigned, and
returns `CHIDB_OK`. -/
def chidb_Btree_split (f : DBFile) (_npage_parent _npage_child _parent_ncell : Nat) :
    DBFile × ChidbStatus :=
  (f, .OK)

/-- The cell-copy loop of `chidb_Btree_insert` (`btree.c` lines 792-801):
for each remaining position, `getCell(rbtn, i)` then
`insertCell(cbtn, i, cell)`, propagating errors. -/
def copyCellsAux (rbtn : BTreeNode) (cbtn : BTreeNode) (i rem : Nat) :
    Except ChidbStatus BTreeNode :=
  match rem with
  | 0 => .ok cbtn
  | rem + 1 =>
    match chidb_Btree_getCell rbtn i with
    | .error e => .error e
    | .ok tcell =>
      match chidb_Btree_insertCell cbtn i tcell with
      | .error e => .error e
      | .ok cbtn2 => copyCellsAux rbtn cbtn2 (i + 1) rem

/-- `chidb_Btree_insert` (`btree.c` lines 760-871), translated with the
source's control flow: load the root; when `!notEnoughSpace` delegate to
`insertNonFull`; otherwise allocate a sibling of the root's type, copy
every root cell into it, carry the root's `right_page` over for internal
roots, write both, reinitialize the root page as the matching internal
type, point its `right_page` at the new sibling, and call `split`.
After the `split` call the C function falls off its end without a
`return` statement: the model returns the distinguished `EUNDEFINED`
status on that path. -/
def chidb_Btree_insert (f : DBFile) (nroot : Nat) (btc : BTreeCell) :
    DBFile × ChidbStatus :=
  match chidb_Btree_getNodeByPage f nroot with
  | .error e => (f, e)
  | .ok rbtn =>
    if notEnoughSpace rbtn btc = 0 then
      chidb_Btree_insertNonFull f nroot btc
    else
      let (f1, npage_cbtn, st1) := chidb_Btree_newNode f rbtn.type
      if st1 ≠ .OK then (f1, st1) else
      match chidb_Btree_getNodeByPage f1 npage_cbtn with
      | .error e => (f1, e)
      | .ok cbtn =>
        match copyCellsAux rbtn cbtn 0 rbtn.n_cells with
        | .error e => (f1, e)
        | .ok cbtn2 =>
          let cbtn3 := if rbtn.type = 2 ∨ rbtn.type = 5 then
            { cbtn2 with right_page := rbtn.right_page } else cbtn2
          let (f2, stw1) := chidb_Btree_writeNode f1 cbtn3
          if stw1 ≠ .OK then (f2, stw1) else
          let rbtn_type := rbtn.type
          let (f3, stw2) := chidb_Btree_writeNode f2 rbtn
          if stw2 ≠ .OK then (f3, stw2) else
          let (f4, st2) :=
            if rbtn_type = 10 ∨ rbtn_type = 2 then
              chidb_Btree_initEmptyNode f3 nroot 2
            else if rbtn_type = 13 ∨ rbtn_type = 5 then
              chidb_Btree_initEmptyNode f3 nroot 5
            else (f3, .EINTERNAL)
          if st2 ≠ .OK then (f4, st2) else
          match chidb_Btree_getNodeByPage f4 nroot with
          | .error e => (f4, e)
          | .ok rbtn2 =>
            let rbtn3 := { rbtn2 with right_page := npage_cbtn }
            let (f5, stw3) := chidb_Btree_writeNode f4 rbtn3
            if stw3 ≠ .OK then (f5, stw3) else
            let (f6, st3) := chidb_Btree_split f5 nroot npage_cbtn 0
            if st3 ≠ .OK then (f6, st3)
            else (f6, .EUNDEFINED)

/-- `chidb_Btree_insertInTable` (`btree.c` lines 666-676): wrap key and
data into a table-leaf cell and call `chidb_Btree_insert`. -/
def chidb_Btree_insertInTable (f : DBFile) (nroot key : Nat) (data : List Nat)
    (size : Nat) : DBFile × ChidbStatus :=
  chidb_Btree_insert f nroot (.tableLeaf size key data)

/-- C2: the concrete insert/find scenario of the claim fails on the
source.  On a fresh file, `insertInTable(root=1, key=42,
data=[0xDE,0xAD,0xBE,0xEF])` does not return `Ok`: because
`notEnoughSpace` is inverted, the roomy fresh root takes the root-split
path; `chidb_Btree_insert` then falls off the end of the function
without ever calling `insertNonFull` (modelled as the `EUNDEFINED`
status), no cell is written, and `find(root=1, key=42)` afterwards
returns `CHIDB_ENOTFOUND` instead of the payload. -/
theorem insertInTable_find_fresh_lost :
    (chidb_Btree_insertInTable freshDBFile 1 42 [222, 173, 190, 239] 4).2
      = .EUNDEFINED ∧
    chidb_Btree_find 10
      (chidb_Btree_insertInTable freshDBFile 1 42 [222, 173, 190, 239] 4).1
      1 42 = .error .ENOTFOUND :=
  ⟨rfl, rfl⟩

/-- A file whose page-1 root is a table leaf with only 2 free bytes
(`free_offset = 108`, `cells_offset = 110`): no room for a 12-byte
cell. -/
def crampedDBFile : DBFile :=
  { pageSize := 1024
    nPages := 1
    pages := fun p =>
      if p = 1 then
        (fun a =>
          if a = 100 then 13 else
          if a = 102 then 108 else
          if a = 106 then 110 else 0)
      else (fun _ => 0) }

/-- C3: the delegation of `chidb_Btree_insert` is inverted, and the
split path never reaches `insertNonFull`.  (a) The fresh root has 916
free bytes — ample room for the 12-byte cell — yet `notEnoughSpace`
returns 1 there, so the source takes the root-split path: it allocates a
sibling (2 pages afterwards), turns page 1 into a table-internal node
(type byte 5 at offset 100), and falls off the end of the function
(status `EUNDEFINED`) without calling `insertNonFull(nroot, cell)`.
(b) A root with only 2 free bytes — no room — is delegated directly to
`insertNonFull` (the stub returns `CHIDB_OK`) with the file unchanged
and no split.  Both directions contradict the claim. -/
theorem insert_delegation_inverted :
    (parseNode freshDBFile 1).cells_offset
      - (parseNode freshDBFile 1).free_offset = 916 ∧
    notEnoughSpace (parseNode freshDBFile 1)
      (.tableLeaf 4 42 [222, 173, 190, 239]) = 1 ∧
    (chidb_Btree_insert freshDBFile 1 (.tableLeaf 4 42 [222, 173, 190, 239])).2
      = .EUNDEFINED ∧
    (chidb_Btree_insert freshDBFile 1
      (.tableLeaf 4 42 [222, 173, 190, 239])).1.pages 1 100 = 5 ∧
    (chidb_Btree_insert freshDBFile 1
      (.tableLeaf 4 42 [222, 173, 190, 239])).1.nPages = 2 ∧
    (parseNode crampedDBFile 1).cells_offset
      - (parseNode crampedDBFile 1).free_offset = 2 ∧
    notEnoughSpace (parseNode crampedDBFile 1)
      (.tableLeaf 4 42 [222, 173, 190, 239]) = 0 ∧
    chidb_Btree_insert crampedDBFile 1 (.tableLeaf 4 42 [222, 173, 190, 239])
      = (crampedDBFile, .OK) :=
  ⟨rfl, rfl, rfl, rfl, rfl, rfl, rfl, rfl⟩

